import Mathlib

/-!
Verification development for a hierarchical (multiple-granularity) lock
manager.  The lock coordination core is embedded shallowly: the hierarchy
levels, the FNV-1a bucket hasher, the path resolver `lockKeys`, the ordered
acquisition loops of `Acquire` / `AcquireResources` (run against an oracle
standing for the blocking row-lock substrate), the `LockHandle.Release`
protocol, and the slice handling of `AcquireResources`.
-/

/-- Hierarchy levels, ancestor to descendant (Go: `LevelUser`, `LevelAccount`,
`LevelResource`, consecutive `iota` values). -/
inductive Level where
  | user
  | account
  | resource
deriving DecidableEq, Repr

/-- The numeric value of a level (Go `Level` is an `int` via `iota`). -/
def Level.toNat : Level → Nat
  | .user => 0
  | .account => 1
  | .resource => 2

/-- A lock target: a hierarchy level together with a hashed bucket
(Go struct `lockTarget{level Level; bucket int}`). -/
structure lockTarget where
  level : Level
  bucket : Nat
deriving DecidableEq, Repr

/-- Go: `const lockBucketSpace = 10_000_000`. -/
def lockBucketSpace : Nat := 10000000

/-- FNV-1a 32-bit offset basis (Go `hash/fnv`, `fnv.New32a()`). -/
def fnvOffsetBasis : Nat := 2166136261

/-- FNV-1a 32-bit prime (Go `hash/fnv`). -/
def fnvPrime : Nat := 16777619

/-- One FNV-1a step: xor the next byte into the state, multiply by the FNV
prime, in 32-bit arithmetic. -/
def fnv32Step (h b : Nat) : Nat := ((h ^^^ b) * fnvPrime) % 4294967296

/-- UTF-8 encoding of one character as byte values (Go's `[]byte(string)`
conversion encodes the string as UTF-8). -/
def utf8Bytes (c : Char) : List Nat :=
  let n := c.toNat
  if n < 128 then [n]
  else if n < 2048 then [192 + n / 64, 128 + n % 64]
  else if n < 65536 then [224 + n / 4096, 128 + (n / 64) % 64, 128 + n % 64]
  else [240 + n / 262144, 128 + (n / 4096) % 64, 128 + (n / 64) % 64, 128 + n % 64]

/-- The UTF-8 bytes of a string. -/
def strBytes (s : String) : List Nat := (s.data.map utf8Bytes).flatten

/-- Go `bucket(prefix, s string) int`: hash the prefix bytes, then the bytes
of `s`, into one FNV-1a 32-bit state, and reduce the 32-bit sum modulo
`lockBucketSpace`. -/
def bucket (pre s : String) : Nat :=
  ((strBytes s).foldl fnv32Step ((strBytes pre).foldl fnv32Step fnvOffsetBasis)) % lockBucketSpace

/-- Go `userTarget`. -/
def userTarget (userID : String) : lockTarget :=
  { level := Level.user, bucket := bucket "user:" userID }

/-- Go `accountTarget`: the chain string is `userID + ":" + accountID`. -/
def accountTarget (userID accountID : String) : lockTarget :=
  { level := Level.account, bucket := bucket "account:" (userID ++ ":" ++ accountID) }

/-- Go `resourceTarget`: the chain string is
`userID + ":" + accountID + ":" + resourceID`. -/
def resourceTarget (userID accountID resourceID : String) : lockTarget :=
  { level := Level.resource, bucket := bucket "resource:" (userID ++ ":" ++ accountID ++ ":" ++ resourceID) }

/-- Go `lockKeys`: validate the identifiers required for the requested level
and build the ancestor-to-target list of lock targets.  Errors carry the Go
error messages. -/
def lockKeys (level : Level) (userID accountID resourceID : String) :
    Except String (List lockTarget) :=
  match level with
  | .user =>
    if userID = "" then .error "userID is required"
    else .ok [userTarget userID]
  | .account =>
    if userID = "" ∨ accountID = "" then .error "userID and accountID are required"
    else .ok [userTarget userID, accountTarget userID accountID]
  | .resource =>
    if userID = "" ∨ accountID = "" ∨ resourceID = "" then
      .error "userID, accountID, and resourceID are required"
    else .ok [userTarget userID, accountTarget userID accountID,
              resourceTarget userID accountID resourceID]

/-- Lexicographic order on strings as Go compares them for `sort.Strings`
(bytewise lexicographic; on UTF-8 encoded text this agrees with the
code-point lexicographic order on the character sequences). -/
def strLe (a b : String) : Prop := a.data ≤ b.data

instance : DecidableRel strLe :=
  fun a b => inferInstanceAs (Decidable (a.data ≤ b.data))

instance : IsTotal String strLe := ⟨fun a b => le_total a.data b.data⟩

instance : IsTrans String strLe := ⟨fun _ _ _ h1 h2 => le_trans h1 h2⟩

instance : IsAntisymm String strLe :=
  ⟨fun a b h1 h2 => by
    cases a with
    | mk da => cases b with
      | mk db => exact congrArg String.mk (le_antisymm h1 h2)⟩

/-- Go `sort.Strings`: ascending lexicographic sort. -/
def sortStrings (l : List String) : List String := List.insertionSort strLe l

/-- The outcome visible to the caller of one coordinator call.  `handle` is
the lock list held by the returned handle's transaction (`none` when no
handle is returned); `heldAfter` is the set of substrate row locks this
call's transaction still holds when the call returns (`tx.Rollback()`
releases every lock of the scope, per the substrate contract). -/
structure CallOutcome where
  handle : Option (List (lockTarget × Bool))
  errMsg : Option String
  txOpened : Bool
  heldAfter : List (lockTarget × Bool)
deriving DecidableEq, Repr

/-- Outcome of a validation failure: the transaction was never opened and no
substrate request was issued. -/
def validationOutcome (e : String) : CallOutcome :=
  { handle := none, errMsg := some e, txOpened := false, heldAfter := [] }

/-- Outcome of `rollback(cause)` inside an acquisition: the scope is
discarded, so every row lock granted in this attempt is released before the
error is returned. -/
def rollbackOutcome (e : String) : CallOutcome :=
  { handle := none, errMsg := some e, txOpened := true, heldAfter := [] }

/-- Outcome of a `BeginTx` failure. -/
def beginFailedOutcome : CallOutcome :=
  { handle := none, errMsg := some "begin tx failed", txOpened := false, heldAfter := [] }

/-- Go `Acquire`'s loop `for i, key := range keys` with
`isTarget := i == len(keys)-1`: request each row lock in order; `grant`
is the substrate oracle deciding whether the blocking `lockRow` request
succeeds.  Returns the first failure (if any) and the locks granted so
far. -/
def acquireLoop (grant : lockTarget → Bool → Bool) (total : Nat) :
    List lockTarget → Nat → List (lockTarget × Bool) →
    Option String × List (lockTarget × Bool)
  | [], _, granted => (none, granted)
  | key :: rest, i, granted =>
    let isTarget : Bool := i == total - 1
    if grant key isTarget then
      acquireLoop grant total rest (i + 1) (granted ++ [(key, isTarget)])
    else
      (some "lock row failed", granted)

/-- Go `Manager.Acquire`: validate and resolve via `lockKeys` (before any
transaction is opened), begin a transaction, request each target in
ancestor-to-descendant order, roll back on the first failure, and return a
handle only on full success. -/
def acquire (grant : lockTarget → Bool → Bool) (beginOk : Bool) (level : Level)
    (userID accountID resourceID : String) : CallOutcome :=
  match lockKeys level userID accountID resourceID with
  | .error e => validationOutcome e
  | .ok keys =>
    if beginOk then
      match acquireLoop grant keys.length keys 0 [] with
      | (some e, _) => rollbackOutcome e
      | (none, granted) =>
        { handle := some granted, errMsg := none, txOpened := true, heldAfter := granted }
    else beginFailedOutcome

/-- Go `AcquireResources`'s resource loop: exclusive row locks on the (already
sorted) resource IDs, in order, aborting on the first failure. -/
def resourceLoop (grant : lockTarget → Bool → Bool) (userID accountID : String) :
    List String → List (lockTarget × Bool) →
    Option String × List (lockTarget × Bool)
  | [], granted => (none, granted)
  | r :: rest, granted =>
    if grant (resourceTarget userID accountID r) true then
      resourceLoop grant userID accountID rest
        (granted ++ [(resourceTarget userID accountID r, true)])
    else
      (some "lock row failed", granted)

/-- Go `Manager.AcquireResources`: validate the identifiers, begin a
transaction, take shared locks on the user and account targets, then
exclusive locks on the resource targets in ascending order of the raw
resource IDs (`ordered := append([]string{}, resourceIDs...);
sort.Strings(ordered)`), rolling back on the first failure. -/
def acquireResources (grant : lockTarget → Bool → Bool) (beginOk : Bool)
    (userID accountID : String) (resourceIDs : List String) : CallOutcome :=
  if userID = "" ∨ accountID = "" then
    validationOutcome "userID and accountID are required"
  else if resourceIDs.length = 0 then
    validationOutcome "resourceIDs is required"
  else if resourceIDs.any (fun r => r == "") then
    validationOutcome "resourceID is required"
  else if beginOk then
    if grant (userTarget userID) false then
      if grant (accountTarget userID accountID) false then
        match resourceLoop grant userID accountID (sortStrings resourceIDs)
            [(userTarget userID, false), (accountTarget userID accountID, false)] with
        | (some e, _) => rollbackOutcome e
        | (none, granted) =>
          { handle := some granted, errMsg := none, txOpened := true, heldAfter := granted }
      else rollbackOutcome "lock row failed"
    else rollbackOutcome "lock row failed"
  else beginFailedOutcome

/-- The (lock target, exclusive?) request flags assigned by `Acquire`'s loop,
starting at index `i` out of `total` keys. -/
def flaggedFrom (total : Nat) : Nat → List lockTarget → List (lockTarget × Bool)
  | _, [] => []
  | i, k :: ks => (k, i == total - 1) :: flaggedFrom total (i + 1) ks

/-- The full request sequence `Acquire` issues for a resolved key list:
each key with its `isTarget := i == len(keys)-1` flag. -/
def acquireReqs (keys : List lockTarget) : List (lockTarget × Bool) :=
  flaggedFrom keys.length 0 keys

/-- The full request sequence `AcquireResources` issues: user target shared,
account target shared, then each resource target exclusive in ascending
order of the raw resource ID. -/
def acquireResourcesReqs (userID accountID : String) (resourceIDs : List String) :
    List (lockTarget × Bool) :=
  (userTarget userID, false) :: (accountTarget userID accountID, false) ::
    (sortStrings resourceIDs).map (fun r => (resourceTarget userID accountID r, true))

/-- Modelled from the spec: row-lock compatibility of the external substrate
(`FOR SHARE` is compatible with `FOR SHARE`; `FOR UPDATE` conflicts with
both modes on the same row).  Two requests on the same row conflict exactly
when at least one of them is exclusive. -/
def rowConflict (e1 e2 : Bool) : Bool := e1 || e2

/-- Modelled from the spec: two resolved paths block each other exactly when
some request of one and some request of the other address the same lock row
(same level and bucket) with incompatible modes. -/
def conflicts (P Q : List (lockTarget × Bool)) : Bool :=
  P.any (fun p => Q.any (fun q => p.1 == q.1 && rowConflict p.2 q.2))

/-- The targets of a resolved path. -/
def targetsOf (P : List (lockTarget × Bool)) : List lockTarget := P.map Prod.fst

/-- The path requests target `t` exclusively somewhere. -/
def exclusiveAt (P : List (lockTarget × Bool)) (t : lockTarget) : Prop :=
  ∃ p ∈ P, p.1 = t ∧ p.2 = true

/-- Non-decreasing hierarchy levels between two requests. -/
def levelLe (p q : lockTarget × Bool) : Prop := p.1.level.toNat ≤ q.1.level.toNat

/-- Written from the spec's words, for comparison with `lockKeys`: the
required identifiers for a level are all non-empty (userID always; accountID
additionally at Account and Resource levels; resourceID additionally at
Resource level). -/
def requiredIdsNonempty (level : Level) (userID accountID resourceID : String) : Prop :=
  match level with
  | .user => userID ≠ ""
  | .account => userID ≠ "" ∧ accountID ≠ ""
  | .resource => userID ≠ "" ∧ accountID ≠ "" ∧ resourceID ≠ ""

/-- Written from the spec's words, for comparison with `lockKeys`: one target
per level from User down to the requested level. -/
def specPathTargets (level : Level) (userID accountID resourceID : String) :
    List lockTarget :=
  match level with
  | .user => [userTarget userID]
  | .account => [userTarget userID, accountTarget userID accountID]
  | .resource => [userTarget userID, accountTarget userID accountID,
                  resourceTarget userID accountID resourceID]

/-- Modelled from the spec: the substrate-side transactional scope backing a
`LockHandle` (Go `*sql.Tx`).  `done` records whether the scope has been
discarded.  Discarding (`Rollback`) releases every lock of the scope and is
idempotent per the substrate contract. -/
structure Tx where
  done : Bool
deriving DecidableEq, Repr

/-- Modelled from the spec: `Scope.Discard` / `tx.Rollback()` — releases
every lock held in the scope unconditionally, idempotent, reporting no
error. -/
def Tx.rollback (t : Tx) : Tx × Option String := ({ done := true }, none)

/-- Go `LockHandle{tx *sql.Tx}`; the `Option` on the outside models a nil
`*LockHandle` receiver, the inner `Option` a nil `tx` field. -/
structure LockHandle where
  tx : Option Tx
deriving DecidableEq, Repr

/-- Go `LockHandle.Release`: `if h == nil || h.tx == nil { return nil };
return h.tx.Rollback()`.  Returns the handle state after the call and the
returned error. -/
def LockHandle.release : Option LockHandle → Option LockHandle × Option String
  | none => (none, none)
  | some h =>
    match h.tx with
    | none => (some h, none)
    | some t =>
      let r := t.rollback
      (some { tx := some r.1 }, r.2)

/-- A handle on which `Release` has nothing to do: a nil handle, a handle
with no underlying transaction, or a handle whose scope is already
discarded. -/
def inertHandle : Option LockHandle → Prop
  | none => True
  | some h => h.tx = none ∨ h.tx = some { done := true }

/-- `n` successive `Release` calls on the same handle; the Bool records
whether any call returned an error. -/
def releaseMany : Nat → Option LockHandle → Option LockHandle × Bool
  | 0, h => (h, false)
  | n + 1, h =>
    let r := LockHandle.release h
    let rest := releaseMany n r.1
    (rest.1, rest.2 || r.2.isSome)

/-- A store of Go string slices; a slice value is a reference (index) into
the store.  Models the aliasing-relevant slice operations of
`AcquireResources`. -/
structure SliceStore where
  arrays : List (List String)
deriving DecidableEq, Repr

/-- Read the contents of a slice. -/
def SliceStore.read (st : SliceStore) (id : Nat) : List String :=
  st.arrays.getD id []

/-- Go `append([]string{}, xs...)`: allocate a fresh backing array holding a
copy of the contents; returns the new store and the fresh reference. -/
def SliceStore.alloc (st : SliceStore) (content : List String) : SliceStore × Nat :=
  ({ arrays := st.arrays ++ [content] }, st.arrays.length)

/-- Overwrite the contents of a slice in place. -/
def SliceStore.write (st : SliceStore) (id : Nat) (content : List String) : SliceStore :=
  { arrays := st.arrays.set id content }

/-- Go `sort.Strings(xs)`: sorts the referenced array in place. -/
def sortInPlace (st : SliceStore) (id : Nat) : SliceStore :=
  st.write id (sortStrings (st.read id))

/-- The slice operations `AcquireResources` performs on the caller-supplied
`resourceIDs` slice: `ordered := append([]string{}, resourceIDs...)` then
`sort.Strings(ordered)`.  Returns the resulting store and the reference to
`ordered`. -/
def acquireResourcesSliceOps (st : SliceStore) (resourceIDsRef : Nat) : SliceStore × Nat :=
  let a := st.alloc (st.read resourceIDsRef)
  (sortInPlace a.1 a.2, a.2)

/-! ## Helper lemmas -/

theorem conflicts_eq_true_iff (P Q : List (lockTarget × Bool)) :
    conflicts P Q = true ↔
      ∃ p ∈ P, ∃ q ∈ Q, p.1 = q.1 ∧ (p.2 = true ∨ q.2 = true) := by
  simp [conflicts, List.any_eq_true, rowConflict, Bool.or_eq_true, beq_iff_eq, and_assoc]

theorem sortStrings_perm (l : List String) : List.Perm (sortStrings l) l :=
  List.perm_insertionSort strLe l

theorem sortStrings_sorted (l : List String) : List.Sorted strLe (sortStrings l) :=
  List.sorted_insertionSort strLe l

theorem sortStrings_eq_of_perm {l1 l2 : List String} (h : List.Perm l1 l2) :
    sortStrings l1 = sortStrings l2 :=
  List.eq_of_perm_of_sorted
    (((sortStrings_perm l1).trans h).trans (sortStrings_perm l2).symm)
    (sortStrings_sorted l1) (sortStrings_sorted l2)

theorem perm_any_eq {α : Type} {l1 l2 : List α} (h : List.Perm l1 l2) (f : α → Bool) :
    l1.any f = l2.any f := by
  cases h1 : l1.any f <;> cases h2 : l2.any f <;> try rfl
  · rw [List.any_eq_true] at h2
    rcases h2 with ⟨x, hx, hfx⟩
    have : l1.any f = true := List.any_eq_true.2 ⟨x, h.mem_iff.2 hx, hfx⟩
    rw [h1] at this; cases this
  · rw [List.any_eq_true] at h1
    rcases h1 with ⟨x, hx, hfx⟩
    have : l2.any f = true := List.any_eq_true.2 ⟨x, h.mem_iff.1 hx, hfx⟩
    rw [h2] at this; cases this

/-! ## Claim theorems -/

/-- C7: the bucket hasher is deterministic (equal inputs give equal buckets)
and its result always lies in `[0, lockBucketSpace)` with
`lockBucketSpace = 10,000,000`. -/
theorem bucket_deterministic_and_bounded (p s p2 s2 : String)
    (hp : p = p2) (hs : s = s2) :
    bucket p s = bucket p2 s2 ∧ bucket p s < lockBucketSpace ∧
      lockBucketSpace = 10000000 := by
  subst hp; subst hs
  refine ⟨rfl, ?_, rfl⟩
  unfold bucket
  exact Nat.mod_lt _ (by decide)

theorem bucket_deterministic_and_bounded_witness :
    bucket "user:" "u1" = bucket "user:" "u1" ∧
      bucket "user:" "u1" < lockBucketSpace ∧ lockBucketSpace = 10000000 :=
  bucket_deterministic_and_bounded "user:" "u1" "user:" "u1" rfl rfl

/-- C9: target identity is not injective over identifier tuples — the
identifiers are joined with the unescaped separator ":", so the distinct
chains ("x", "y:z") and ("x:y", "z") build the identical composite string
and map to the exact same lock target, with no hash-bucket collision
involved. -/
theorem accountTarget_not_injective :
    accountTarget "x" "y:z" = accountTarget "x:y" "z" ∧
      (("x", "y:z") : String × String) ≠ ("x:y", "z") := by
  refine ⟨by decide, by decide⟩

/-- C8: `Release` on an absent handle (nil handle or nil transaction) or on
an already-released handle returns no error and leaves the handle state
unchanged, for any number of repeated calls. -/
theorem release_inert_noop (h : Option LockHandle) (hin : inertHandle h) :
    LockHandle.release h = (h, none) ∧ ∀ n, releaseMany n h = (h, false) := by
  have h1 : LockHandle.release h = (h, none) := by
    match h with
    | none => rfl
    | some hh =>
      cases hh with
      | mk tx =>
        rcases hin with htx | htx <;> simp_all [LockHandle.release, Tx.rollback]
  refine ⟨h1, ?_⟩
  intro n
  induction n with
  | zero => rfl
  | succ n ih => simp [releaseMany, h1, ih]

theorem release_inert_noop_witness :
    LockHandle.release (some { tx := some { done := true } }) =
        (some { tx := some { done := true } }, none) ∧
      releaseMany 3 (some { tx := some { done := true } }) =
        (some { tx := some { done := true } }, false) :=
  ⟨(release_inert_noop (some { tx := some { done := true } }) (Or.inr rfl)).1,
   (release_inert_noop (some { tx := some { done := true } }) (Or.inr rfl)).2 3⟩

/-- C3: two resolved paths conflict exactly when their target sets share a
lock target (same level, same bucket) at which at least one path requests
Exclusive mode; paths that only share Shared/Shared targets never block
each other. -/
theorem conflict_law (P Q : List (lockTarget × Bool)) :
    (conflicts P Q = true ↔
      ∃ t, t ∈ targetsOf P ∧ t ∈ targetsOf Q ∧ (exclusiveAt P t ∨ exclusiveAt Q t)) ∧
    ((∀ p ∈ P, ∀ q ∈ Q, p.1 = q.1 → p.2 = false ∧ q.2 = false) →
      conflicts P Q = false) := by
  constructor
  · rw [conflicts_eq_true_iff]
    constructor
    · rintro ⟨p, hp, q, hq, hpq, hx⟩
      refine ⟨p.1, List.mem_map.2 ⟨p, hp, rfl⟩, List.mem_map.2 ⟨q, hq, hpq.symm⟩, ?_⟩
      rcases hx with hx | hx
      · exact Or.inl ⟨p, hp, rfl, hx⟩
      · exact Or.inr ⟨q, hq, hpq.symm, hx⟩
    · rintro ⟨t, htP, htQ, hx⟩
      rcases List.mem_map.1 htP with ⟨p, hp, hpt⟩
      rcases List.mem_map.1 htQ with ⟨q, hq, hqt⟩
      rcases hx with ⟨p2, hp2, hp2t, hp2x⟩ | ⟨q2, hq2, hq2t, hq2x⟩
      · exact ⟨p2, hp2, q, hq, by rw [hp2t, hqt], Or.inl hp2x⟩
      · exact ⟨p, hp, q2, hq2, by rw [hpt, hq2t], Or.inr hq2x⟩
  · intro hsh
    cases hc : conflicts P Q
    · rfl
    · exfalso
      rcases (conflicts_eq_true_iff P Q).1 hc with ⟨p, hp, q, hq, hpq, hx⟩
      rcases hsh p hp q hq hpq with ⟨hp0, hq0⟩
      rcases hx with hx | hx
      · rw [hp0] at hx; cases hx
      · rw [hq0] at hx; cases hx

theorem conflict_law_witness :
    conflicts [(userTarget "u", false)] [(userTarget "u", false)] = false :=
  (conflict_law [(userTarget "u", false)] [(userTarget "u", false)]).2 (by decide)

/-- C10: the slice operations of `AcquireResources` sort a private copy: the
caller-supplied `resourceIDs` slice is unchanged after the call, and the
fresh copy holds the sorted contents. -/
theorem acquireResources_preserves_input_slice (st : SliceStore) (ref : Nat)
    (href : ref < st.arrays.length) :
    (acquireResourcesSliceOps st ref).1.read ref = st.read ref ∧
      (acquireResourcesSliceOps st ref).1.read (acquireResourcesSliceOps st ref).2 =
        sortStrings (st.read ref) := by
  have hne : st.arrays.length ≠ ref := Nat.ne_of_gt href
  constructor
  · show ((st.arrays ++ [st.read ref]).set st.arrays.length _).getD ref [] = st.read ref
    rw [List.getD_eq_getElem?_getD, List.getElem?_set_ne hne, List.getElem?_append,
      if_pos href, ← List.getD_eq_getElem?_getD]
    rfl
  · show ((st.arrays ++ [st.read ref]).set st.arrays.length _).getD st.arrays.length [] = _
    have hlen : st.arrays.length < (st.arrays ++ [st.read ref]).length := by
      simp
    rw [List.getD_eq_getElem?_getD, List.getElem?_set_self hlen]
    show sortStrings ((st.arrays ++ [st.read ref]).getD st.arrays.length []) = _
    rw [List.getD_eq_getElem?_getD, List.getElem?_append, if_neg (by omega)]
    simp

theorem acquireResources_preserves_input_slice_witness :
    (acquireResourcesSliceOps { arrays := [["b", "a"]] } 0).1.read 0 = ["b", "a"] ∧
      (acquireResourcesSliceOps { arrays := [["b", "a"]] } 0).1.read
        (acquireResourcesSliceOps { arrays := [["b", "a"]] } 0).2 = ["a", "b"] := by
  have h := acquireResources_preserves_input_slice { arrays := [["b", "a"]] } 0 (by decide)
  refine ⟨by rw [h.1]; decide, by rw [h.2]; decide⟩

/-- C2: `AcquireResources` issues the identical request sequence for any two
permutations of the resource ID list — user target shared, then account
target shared, then the resource targets exclusive in ascending
lexicographic order of the raw resource IDs — and the whole call outcome is
the same for any substrate behavior. -/
theorem acquireResources_canonical_order (userID accountID : String)
    (rs1 rs2 : List String) (hperm : List.Perm rs1 rs2) :
    acquireResourcesReqs userID accountID rs1 = acquireResourcesReqs userID accountID rs2 ∧
    (∀ grant beginOk, acquireResources grant beginOk userID accountID rs1 =
        acquireResources grant beginOk userID accountID rs2) ∧
    List.Sorted strLe (sortStrings rs1) ∧
    List.Perm (sortStrings rs1) rs1 := by
  have hs := sortStrings_eq_of_perm hperm
  refine ⟨?_, ?_, sortStrings_sorted rs1, sortStrings_perm rs1⟩
  · simp [acquireResourcesReqs, hs]
  · intro grant beginOk
    simp only [acquireResources, hperm.length_eq, perm_any_eq hperm, hs]

theorem acquireResources_canonical_order_witness :
    acquireResourcesReqs "u" "a" ["r2", "r1"] = acquireResourcesReqs "u" "a" ["r1", "r2"] ∧
      acquireResources (fun _ _ => true) true "u" "a" ["r2", "r1"] =
        acquireResources (fun _ _ => true) true "u" "a" ["r1", "r2"] := by
  have h := acquireResources_canonical_order "u" "a" ["r2", "r1"] ["r1", "r2"] (by decide)
  exact ⟨h.1, h.2.1 (fun _ _ => true) true⟩

/-- C4: in every resolved request sequence the ancestors are requested in
Shared mode and only the final target (for `AcquireResources`, every
resource-level target) is requested in Exclusive mode. -/
theorem modes_shared_ancestors_exclusive_target (level : Level)
    (userID accountID resourceID u2 a2 : String) (keys : List lockTarget)
    (rs : List String)
    (hk : lockKeys level userID accountID resourceID = Except.ok keys) :
    (acquireReqs keys).map Prod.snd = List.replicate (keys.length - 1) false ++ [true] ∧
    (acquireResourcesReqs u2 a2 rs).map Prod.snd =
      false :: false :: List.replicate (sortStrings rs).length true := by
  constructor
  · cases level <;> simp only [lockKeys] at hk <;> split_ifs at hk <;>
      injection hk with hk <;> subst hk <;> rfl
  · simp [acquireResourcesReqs, List.map_map, Function.comp_def, List.map_const']

theorem modes_shared_ancestors_exclusive_target_witness :
    (acquireReqs [userTarget "u", accountTarget "u" "a",
        resourceTarget "u" "a" "r"]).map Prod.snd =
      List.replicate ([userTarget "u", accountTarget "u" "a",
        resourceTarget "u" "a" "r"].length - 1) false ++ [true] ∧
    (acquireResourcesReqs "u" "a" ["r2", "r1"]).map Prod.snd =
      false :: false :: List.replicate (sortStrings ["r2", "r1"]).length true :=
  modes_shared_ancestors_exclusive_target Level.resource "u" "a" "r" "u" "a"
    [userTarget "u", accountTarget "u" "a", resourceTarget "u" "a" "r"] ["r2", "r1"] rfl

/-- C5: in every resolved request sequence the hierarchy levels are
non-decreasing: the User target comes before the Account target, which comes
before any Resource target, so ancestors are requested strictly before
descendants. -/
theorem levels_ancestors_first (level : Level)
    (userID accountID resourceID u2 a2 : String) (keys : List lockTarget)
    (rs : List String)
    (hk : lockKeys level userID accountID resourceID = Except.ok keys) :
    List.Pairwise levelLe (acquireReqs keys) ∧
    List.Pairwise levelLe (acquireResourcesReqs u2 a2 rs) := by
  constructor
  · cases level <;> simp only [lockKeys] at hk <;> split_ifs at hk <;>
      injection hk with hk <;> subst hk <;>
      simp [acquireReqs, flaggedFrom, List.pairwise_cons, levelLe, userTarget,
        accountTarget, resourceTarget, Level.toNat]
  · have hmap : ∀ l : List String,
        List.Pairwise levelLe (l.map (fun r => (resourceTarget u2 a2 r, true))) := by
      intro l
      induction l with
      | nil => simp
      | cons x xs ih =>
        simp only [List.map_cons, List.pairwise_cons]
        refine ⟨?_, ih⟩
        intro y hy
        rcases List.mem_map.1 hy with ⟨r, _, rfl⟩
        simp [levelLe, resourceTarget, Level.toNat]
    simp only [acquireResourcesReqs, List.pairwise_cons]
    refine ⟨?_, ?_, hmap (sortStrings rs)⟩
    · intro y hy
      rcases List.mem_cons.1 hy with rfl | hy
      · simp [levelLe, userTarget, accountTarget, Level.toNat]
      · rcases List.mem_map.1 hy with ⟨r, _, rfl⟩
        simp [levelLe, userTarget, resourceTarget, Level.toNat]
    · intro y hy
      rcases List.mem_map.1 hy with ⟨r, _, rfl⟩
      simp [levelLe, accountTarget, resourceTarget, Level.toNat]

theorem levels_ancestors_first_witness :
    List.Pairwise levelLe (acquireReqs [userTarget "u", accountTarget "u" "a",
        resourceTarget "u" "a" "r"]) ∧
      List.Pairwise levelLe (acquireResourcesReqs "u" "a" ["r2", "r1"]) :=
  levels_ancestors_first Level.resource "u" "a" "r" "u" "a"
    [userTarget "u", accountTarget "u" "a", resourceTarget "u" "a" "r"] ["r2", "r1"] rfl

/-- C6: `Acquire` fails validation — before opening any transaction or
issuing any substrate request — exactly when a required identifier is
empty (userID always; accountID at Account/Resource level; resourceID at
Resource level); with all required identifiers non-empty, resolution
succeeds and yields one target per level from User down to the requested
level. -/
theorem validation_before_substrate (grant : lockTarget → Bool → Bool) (beginOk : Bool)
    (level : Level) (userID accountID resourceID : String) :
    ((∃ ks, lockKeys level userID accountID resourceID = Except.ok ks) ↔
      requiredIdsNonempty level userID accountID resourceID) ∧
    (∀ e, lockKeys level userID accountID resourceID = Except.error e →
      acquire grant beginOk level userID accountID resourceID = validationOutcome e) ∧
    (requiredIdsNonempty level userID accountID resourceID →
      lockKeys level userID accountID resourceID =
        Except.ok (specPathTargets level userID accountID resourceID)) := by
  refine ⟨?_, ?_, ?_⟩
  · cases level <;> simp only [lockKeys, requiredIdsNonempty] <;>
      split_ifs with h <;> simp_all <;> tauto
  · intro e he
    simp only [acquire, he]
  · intro hreq
    cases level <;> simp only [lockKeys, requiredIdsNonempty, specPathTargets] at hreq ⊢ <;>
      split_ifs with h <;> first | rfl | tauto

theorem validation_before_substrate_witness :
    acquire (fun _ _ => true) true Level.resource "" "a" "r" =
      validationOutcome "userID, accountID, and resourceID are required" ∧
    lockKeys Level.resource "u" "a" "r" =
      Except.ok (specPathTargets Level.resource "u" "a" "r") := by
  refine ⟨(validation_before_substrate (fun _ _ => true) true Level.resource "" "a" "r").2.1
      "userID, accountID, and resourceID are required" rfl, ?_⟩
  exact (validation_before_substrate (fun _ _ => true) true Level.resource "u" "a" "r").2.2
    ⟨by decide, by decide, by decide⟩

theorem acquireLoop_none (grant : lockTarget → Bool → Bool) (total : Nat) :
    ∀ (ks : List lockTarget) (i : Nat) (acc out : List (lockTarget × Bool)),
      acquireLoop grant total ks i acc = (none, out) →
      out = acc ++ flaggedFrom total i ks ∧
        ∀ p ∈ flaggedFrom total i ks, grant p.1 p.2 = true := by
  intro ks
  induction ks with
  | nil =>
    intro i acc out h
    simp only [acquireLoop] at h
    injection h with h1 h2
    simp [flaggedFrom, h2]
  | cons k rest ih =>
    intro i acc out h
    simp only [acquireLoop] at h
    by_cases hg : grant k (i == total - 1) = true
    · rw [if_pos hg] at h
      obtain ⟨ho, hall⟩ := ih (i + 1) (acc ++ [(k, i == total - 1)]) out h
      refine ⟨by simpa [flaggedFrom, List.append_assoc] using ho, ?_⟩
      intro p hp
      rcases List.mem_cons.1 hp with rfl | hp
      · exact hg
      · exact hall p hp
    · rw [if_neg hg] at h
      simp at h

theorem resourceLoop_none (grant : lockTarget → Bool → Bool) (userID accountID : String) :
    ∀ (rs : List String) (acc out : List (lockTarget × Bool)),
      resourceLoop grant userID accountID rs acc = (none, out) →
      out = acc ++ rs.map (fun r => (resourceTarget userID accountID r, true)) ∧
        ∀ r ∈ rs, grant (resourceTarget userID accountID r) true = true := by
  intro rs
  induction rs with
  | nil =>
    intro acc out h
    simp only [resourceLoop] at h
    injection h with h1 h2
    simp [h2]
  | cons r rest ih =>
    intro acc out h
    simp only [resourceLoop] at h
    by_cases hg : grant (resourceTarget userID accountID r) true = true
    · rw [if_pos hg] at h
      obtain ⟨ho, hall⟩ := ih _ out h
      refine ⟨by simpa [List.append_assoc] using ho, ?_⟩
      intro x hx
      rcases List.mem_cons.1 hx with rfl | hx
      · exact hg
      · exact hall x hx
    · rw [if_neg hg] at h
      simp at h

/-- C1: `Acquire` and `AcquireResources` never expose a partial result: on
any failure the transaction scope is discarded (no lock remains held) and no
handle is returned; a handle is returned only when every target of the
resolved path was granted, and it carries exactly the full resolved request
sequence. -/
theorem no_partial_handle (grant : lockTarget → Bool → Bool) (beginOk : Bool)
    (level : Level) (userID accountID resourceID u2 a2 : String) (rs : List String) :
    (∀ g, (acquire grant beginOk level userID accountID resourceID).handle = some g →
      (∃ keys, lockKeys level userID accountID resourceID = Except.ok keys ∧
        g = acquireReqs keys ∧ ∀ p ∈ g, grant p.1 p.2 = true) ∧
      (acquire grant beginOk level userID accountID resourceID).errMsg = none) ∧
    ((acquire grant beginOk level userID accountID resourceID).errMsg.isSome = true →
      (acquire grant beginOk level userID accountID resourceID).handle = none ∧
      (acquire grant beginOk level userID accountID resourceID).heldAfter = []) ∧
    (∀ g, (acquireResources grant beginOk u2 a2 rs).handle = some g →
      g = acquireResourcesReqs u2 a2 rs ∧ (∀ p ∈ g, grant p.1 p.2 = true) ∧
      (acquireResources grant beginOk u2 a2 rs).errMsg = none) ∧
    ((acquireResources grant beginOk u2 a2 rs).errMsg.isSome = true →
      (acquireResources grant beginOk u2 a2 rs).handle = none ∧
      (acquireResources grant beginOk u2 a2 rs).heldAfter = []) := by
  have hAcq : (∀ g, (acquire grant beginOk level userID accountID resourceID).handle = some g →
      (∃ keys, lockKeys level userID accountID resourceID = Except.ok keys ∧
        g = acquireReqs keys ∧ ∀ p ∈ g, grant p.1 p.2 = true) ∧
      (acquire grant beginOk level userID accountID resourceID).errMsg = none) ∧
      ((acquire grant beginOk level userID accountID resourceID).errMsg.isSome = true →
      (acquire grant beginOk level userID accountID resourceID).handle = none ∧
      (acquire grant beginOk level userID accountID resourceID).heldAfter = []) := by
    cases hlk : lockKeys level userID accountID resourceID with
    | error e => simp [acquire, hlk, validationOutcome]
    | ok keys =>
      cases beginOk with
      | false => simp [acquire, hlk, beginFailedOutcome]
      | true =>
        cases hloop : acquireLoop grant keys.length keys 0 [] with
        | mk fst snd =>
          cases fst with
          | some e => simp [acquire, hlk, hloop, rollbackOutcome]
          | none =>
            obtain ⟨ho, hall⟩ := acquireLoop_none grant keys.length keys 0 [] snd hloop
            have hsnd : snd = acquireReqs keys := by simpa [acquireReqs] using ho
            simp only [acquire, hlk, hloop, if_true]
            constructor
            · intro g hg
              injection hg with hg
              subst hg
              exact ⟨⟨keys, rfl, hsnd, by rw [hsnd]; exact hall⟩, trivial⟩
            · intro hcontra
              simp at hcontra
  have hAR : (∀ g, (acquireResources grant beginOk u2 a2 rs).handle = some g →
      g = acquireResourcesReqs u2 a2 rs ∧ (∀ p ∈ g, grant p.1 p.2 = true) ∧
      (acquireResources grant beginOk u2 a2 rs).errMsg = none) ∧
      ((acquireResources grant beginOk u2 a2 rs).errMsg.isSome = true →
      (acquireResources grant beginOk u2 a2 rs).handle = none ∧
      (acquireResources grant beginOk u2 a2 rs).heldAfter = []) := by
    simp only [acquireResources]
    split_ifs with h1 h2 h3 h4 h5 h6
    · simp [validationOutcome]
    · simp [validationOutcome]
    · simp [validationOutcome]
    · cases hloop : resourceLoop grant u2 a2 (sortStrings rs)
          [(userTarget u2, false), (accountTarget u2 a2, false)] with
      | mk fst snd =>
        cases fst with
        | some e => simp [hloop, rollbackOutcome]
        | none =>
          obtain ⟨ho, hall⟩ := resourceLoop_none grant u2 a2 (sortStrings rs) _ snd hloop
          have hsnd : snd = acquireResourcesReqs u2 a2 rs := by
            simpa [acquireResourcesReqs] using ho
          simp only [hloop]
          constructor
          · intro g hg
            injection hg with hg
            subst hg
            refine ⟨hsnd, ?_, trivial⟩
            intro p hp
            rw [hsnd] at hp
            simp only [acquireResourcesReqs, List.mem_cons, List.mem_map] at hp
            rcases hp with rfl | rfl | ⟨r, hr, rfl⟩
            · exact h5
            · exact h6
            · exact hall r hr
          · intro hcontra
            simp at hcontra
    · simp [rollbackOutcome]
    · simp [rollbackOutcome]
    · simp [beginFailedOutcome]
  exact ⟨hAcq.1, hAcq.2, hAR.1, hAR.2⟩

theorem no_partial_handle_witness :
    (acquire (fun _ _ => true) true Level.resource "u" "a" "r").errMsg = none ∧
      (acquireResources (fun _ _ => false) true "u" "a" ["r2", "r1"]).handle = none ∧
      (acquireResources (fun _ _ => false) true "u" "a" ["r2", "r1"]).heldAfter = [] := by
  refine ⟨((no_partial_handle (fun _ _ => true) true Level.resource "u" "a" "r" "u" "a"
      ["r2", "r1"]).1 (acquireReqs [userTarget "u", accountTarget "u" "a",
      resourceTarget "u" "a" "r"]) (by decide)).2, ?_, ?_⟩
  · exact ((no_partial_handle (fun _ _ => false) true Level.resource "u" "a" "r" "u" "a"
      ["r2", "r1"]).2.2.2 (by decide)).1
  · exact ((no_partial_handle (fun _ _ => false) true Level.resource "u" "a" "r" "u" "a"
      ["r2", "r1"]).2.2.2 (by decide)).2
